import Mathlib

/-
Shallow embedding of `src/src/lib.rs` (the xml_dict crate): a converter between
XML documents and `serde_json::Value` trees, exposed to Python via pyo3.

Modelling decisions (each annotated at its definition):
* The external quick-xml tokenizer is out of scope (the crate only consumes its
  event stream), so the decoder is embedded as a function over a list of reader
  events (`XEvent`).  Concrete XML inputs appearing in theorems are accompanied
  by the event list quick-xml produces for them; the relevant quick-xml facts
  (default `expand_empty_elements = false`, `trim_text(true)` set by the code)
  are recorded in comments.
* The external quick-xml writer is modelled by `render`, which serialises the
  write events (`WEvent`) the encoder emits; escaping that quick-xml performs
  at event construction time (`BytesText::new`, `push_attribute`) is folded
  into `render`, which is observationally the same.
* `serde_json::Map` and the decoder's `HashMap` of pending attributes are
  modelled as association lists carrying their iteration order; `Map.insert`
  replaces in place (order-preserving).  No claim below depends on a specific
  key order.
* `serde_json` numbers are modelled abstractly by `Int`; no code path under
  study inspects numeric values other than through `as_str` (which rejects
  every non-string alike).
-/

namespace XmlDict

/-- serde_json `Value`, the tree type `parse_xml` builds and `value_to_xml`
consumes.  `obj` carries its entries as an association list in iteration
order. -/
inductive Value where
  | null : Value
  | bool : Bool → Value
  | num : Int → Value
  | str : String → Value
  | arr : List Value → Value
  | obj : List (String × Value) → Value

/-- `serde_json::Map::get`: first (and only, for well-formed maps) binding of a
key. -/
def Map.get (m : List (String × Value)) (k : String) : Option Value :=
  match m with
  | [] => none
  | (k', v') :: rest => if k' == k then some v' else Map.get rest k

/-- `serde_json::Map::insert`: replace the binding in place if the key is
present, otherwise append the new binding. -/
def Map.insert (m : List (String × Value)) (k : String) (v : Value) :
    List (String × Value) :=
  match m with
  | [] => [(k, v)]
  | (k', v') :: rest =>
      if k' == k then (k', v) :: rest else (k', v') :: Map.insert rest k v

/-- One attribute as delivered by quick-xml's `e.attributes()` iterator
(lib.rs lines 29-37): the outer `Except` is the attribute-parse result the code
filters with `.filter_map(|a| a.ok())`; on success it carries the key and the
result of `a.unescape_value()`. -/
abbrev RawAttr := Except String (String × Except String String)

/-- `unwrap_or_default()` on a string-valued `Result`. -/
def unescOr (r : Except String String) : String :=
  match r with
  | Except.ok s => s
  | Except.error _ => ""

/-- Rust `str::trim` modelled on the character list (drop whitespace from both
ends); only the emptiness of the result is ever inspected (lib.rs line 45). -/
def trimData (s : String) : List Char :=
  ((s.data.dropWhile Char.isWhitespace).reverse.dropWhile Char.isWhitespace).reverse

/-- One quick-xml reader event, restricted to what the `parse_xml` event loop
distinguishes.  `empty` is `Event::Empty` (a self-closing tag, which quick-xml
emits for `<e/>` since `expand_empty_elements` is left at its default `false`);
the loop's `_ => ()` arm ignores it, like `other` (Decl, Comment, CData, PI,
DocType).  `err` is a tokenizer error carrying `buffer_position()` and the
debug-formatted message.  End of the list is `Event::Eof`. -/
inductive XEvent where
  | start : String → List RawAttr → XEvent
  | text : Except String String → XEvent
  | endTag : XEvent
  | empty : String → List RawAttr → XEvent
  | err : Nat → String → XEvent
  | other : XEvent

/-- The mutable state of `parse_xml`'s event loop (lib.rs lines 16-19): the
stack of open-element frames, the captured root, and the current value /
pending-attribute slots. -/
structure PState where
  stack : List (String × Option Value × List (String × Value))
  root : Option Value
  current_value : Option Value
  current_attrs : List (String × Value)

/-- Attribute processing on a start tag (lib.rs lines 29-37): drop attributes
whose parse failed, prefix the key with `@`, and default a failed unescape to
the empty string. -/
def mkAttrs (raw : List RawAttr) : List (String × Value) :=
  (raw.filterMap Except.toOption).map
    (fun kv => ("@" ++ kv.1, Value.str (unescOr kv.2)))

/-- Resolution of a closing element's value (lib.rs lines 51-64): an object is
used as is, any other captured value is wrapped under `#text`, an untouched
slot becomes the empty map; then every pending attribute is merged in. -/
def closeObj (cv : Option Value) (cattrs : List (String × Value)) :
    List (String × Value) :=
  let obj :=
    match cv with
    | some (Value.obj m) => m
    | some v => [("#text", v)]
    | none => []
  cattrs.foldl (fun m kv => Map.insert m kv.1 kv.2) obj

/-- The duplicate-key merge rule used when inserting a closed child into its
parent (lib.rs lines 71-82): append to an existing `Array`, turn any other
existing value into a two-element `Array` of old then new, or insert
directly. -/
def insertMerged (parent : List (String × Value)) (name : String)
    (new_value : Value) : List (String × Value) :=
  match Map.get parent name with
  | some (Value.arr a) => Map.insert parent name (Value.arr (a ++ [new_value]))
  | some old => Map.insert parent name (Value.arr [old, new_value])
  | none => Map.insert parent name new_value

/-- One iteration of `parse_xml`'s event loop (lib.rs lines 22-98).  `err`
events return the formatted error the code builds; an end tag with an empty
stack models the `stack.pop().unwrap()` panic (unreachable under quick-xml's
default end-tag checking) as an error. -/
def step (st : PState) (ev : XEvent) : Except String PState :=
  match ev with
  | XEvent.start name raw =>
      Except.ok
        { stack := (name, st.current_value, st.current_attrs) :: st.stack
          root := st.root
          current_value := some (Value.obj [])
          current_attrs := mkAttrs raw }
  | XEvent.text r =>
      let t := unescOr r
      Except.ok
        (if (trimData t).isEmpty then st
         else { st with current_value := some (Value.str t) })
  | XEvent.endTag =>
      match st.stack with
      | [] => Except.error "panicked at Option::unwrap on a None value"
      | (name, parent_val, parent_attrs) :: rest =>
          let new_value := Value.obj (closeObj st.current_value st.current_attrs)
          Except.ok
            (match parent_val with
             | some (Value.obj parent) =>
                 { stack := rest
                   root := st.root
                   current_value :=
                     some (Value.obj (insertMerged parent name new_value))
                   current_attrs := parent_attrs }
             | _ =>
                 { stack := rest
                   root := some new_value
                   current_value := parent_val
                   current_attrs := parent_attrs })
  | XEvent.err pos msg =>
      Except.error ("Error at position " ++ toString pos ++ ": " ++ msg)
  | XEvent.empty _ _ => Except.ok st
  | XEvent.other => Except.ok st

/-- The event loop itself: fold `step` over the event list, aborting on the
first error; the end of the list is `Event::Eof`. -/
def parseLoop (st : PState) : List XEvent → Except String PState
  | [] => Except.ok st
  | ev :: rest =>
      match step st ev with
      | Except.ok st2 => parseLoop st2 rest
      | Except.error e => Except.error e

/-- Initial loop state (lib.rs lines 16-19). -/
def initState : PState :=
  { stack := [], root := none, current_value := none, current_attrs := [] }

/-- `parse_xml` (lib.rs lines 13-101): run the event loop from the empty state
and return the captured root, or `"Empty XML document"` if none was
captured. -/
def parse_xml (events : List XEvent) : Except String Value :=
  match parseLoop initState events with
  | Except.ok st =>
      match st.root with
      | some v => Except.ok v
      | none => Except.error "Empty XML document"
  | Except.error e => Except.error e

/-- `Value::as_str`: the contained string, or `None` for every other
variant. -/
def asStr (v : Value) : Option String :=
  match v with
  | Value.str s => some s
  | _ => none

/-- Rust `k.starts_with('@')` (char pattern), on the character list. -/
def startsWithAt (k : String) : Bool :=
  match k.data with
  | [] => false
  | c :: _ => c == '@'

/-- Rust `k.trim_start_matches('@')`: remove every leading `'@'`. -/
def stripLeadingAt (k : String) : String :=
  String.mk (k.data.dropWhile (fun c => c == '@'))

/-- One quick-xml write event, as issued by `value_to_xml` and
`dict_to_xml_str` (attribute values and text are carried unescaped; `render`
applies the escaping quick-xml performs). -/
inductive WEvent where
  | decl : String → String → WEvent
  | empty : String → List (String × String) → WEvent
  | start : String → List (String × String) → WEvent
  | text : String → WEvent
  | endTag : String → WEvent
deriving DecidableEq

/-- Accumulating pass over an object's entries (lib.rs lines 114-127): `@`-keys
become attributes (prefix stripped, non-strings defaulting to `""`), `#text`
becomes the element text, everything else a child entry. -/
def partAux (entries : List (String × Value))
    (acc : List (String × String) × List (String × Value) × Option String) :
    List (String × String) × List (String × Value) × Option String :=
  match entries with
  | [] => acc
  | kv :: rest =>
      if startsWithAt kv.1 then
        partAux rest
          (acc.1 ++ [(stripLeadingAt kv.1, (asStr kv.2).getD "")], acc.2.1, acc.2.2)
      else if kv.1 == "#text" then
        partAux rest (acc.1, acc.2.1, some ((asStr kv.2).getD ""))
      else
        partAux rest (acc.1, Map.insert acc.2.1 kv.1 kv.2, acc.2.2)

/-- The attribute/children/text partition of a value (lib.rs lines 110-128):
non-objects contribute nothing to any of the three groups. -/
def partitionValue (value : Value) :
    List (String × String) × List (String × Value) × Option String :=
  match value with
  | Value.obj entries => partAux entries ([], [], none)
  | _ => ([], [], none)

theorem mem_Map_insert {m : List (String × Value)} {k : String} {v : Value}
    {p : String × Value} (h : p ∈ Map.insert m k v) : p.2 = v ∨ p ∈ m := by
  induction m with
  | nil =>
      simp only [Map.insert, List.mem_singleton] at h
      subst h; exact Or.inl rfl
  | cons q rest ih =>
      simp only [Map.insert] at h
      by_cases hk : q.1 == k
      · simp only [hk, if_pos] at h
        rcases List.mem_cons.mp h with h1 | h1
        · subst h1; exact Or.inl rfl
        · exact Or.inr (List.mem_cons_of_mem _ h1)
      · simp only [hk, if_neg, Bool.false_eq_true, not_false_iff] at h
        rcases List.mem_cons.mp h with h1 | h1
        · subst h1; exact Or.inr (List.mem_cons_self _ _)
        · rcases ih h1 with h2 | h2
          · exact Or.inl h2
          · exact Or.inr (List.mem_cons_of_mem _ h2)

theorem mem_partAux_children (entries : List (String × Value))
    (acc : List (String × String) × List (String × Value) × Option String)
    {p : String × Value} (h : p ∈ (partAux entries acc).2.1) :
    p ∈ acc.2.1 ∨ ∃ q ∈ entries, p.2 = q.2 := by
  induction entries generalizing acc with
  | nil => exact Or.inl h
  | cons kv rest ih =>
      simp only [partAux] at h
      by_cases h1 : startsWithAt kv.1
      · simp only [h1, if_pos] at h
        rcases ih _ h with h2 | ⟨q, hq, hval⟩
        · exact Or.inl h2
        · exact Or.inr ⟨q, List.mem_cons_of_mem _ hq, hval⟩
      · simp only [h1, Bool.false_eq_true, if_neg, not_false_iff] at h
        by_cases h2 : kv.1 == "#text"
        · simp only [h2, if_pos] at h
          rcases ih _ h with h3 | ⟨q, hq, hval⟩
          · exact Or.inl h3
          · exact Or.inr ⟨q, List.mem_cons_of_mem _ hq, hval⟩
        · simp only [h2, Bool.false_eq_true, if_neg, not_false_iff] at h
          rcases ih _ h with h3 | ⟨q, hq, hval⟩
          · rcases mem_Map_insert h3 with h4 | h4
            · exact Or.inr ⟨kv, List.mem_cons_self _ _, h4⟩
            · exact Or.inl h4
          · exact Or.inr ⟨q, List.mem_cons_of_mem _ hq, hval⟩

theorem sizeOf_lt_of_mem_children {value : Value} {p : String × Value}
    (h : p ∈ (partitionValue value).2.1) : sizeOf p.2 < sizeOf value := by
  cases value with
  | obj entries =>
      rcases mem_partAux_children entries ([], [], none) h with h1 | ⟨q, hq, hval⟩
      · simp at h1
      · have hs : sizeOf q < sizeOf entries := List.sizeOf_lt_of_mem hq
        have hq2 : sizeOf q.2 ≤ sizeOf q := by
          cases q with
          | mk a b => simp [Prod.mk.sizeOf_spec]
        have : sizeOf (Value.obj entries) = 1 + sizeOf entries := by
          simp [Value.obj.sizeOf_spec]
        rw [hval]
        omega
  | null => simp [partitionValue] at h
  | bool b => simp [partitionValue] at h
  | num n => simp [partitionValue] at h
  | str s => simp [partitionValue] at h
  | arr a => simp [partitionValue] at h

/-- `value_to_xml` (lib.rs lines 105-169), as the list of write events it feeds
the writer: partition the value, emit a self-closing tag when there is neither
text nor children, otherwise an open tag, the text, each child (one sibling
element per entry of an `Array`-valued child key), and the closing tag. -/
def value_to_xml (value : Value) (parent_name : String) : List WEvent :=
  if (partitionValue value).2.1.isEmpty && (partitionValue value).2.2.isNone then
    [WEvent.empty parent_name (partitionValue value).1]
  else
    (WEvent.start parent_name (partitionValue value).1 ::
      ((match (partitionValue value).2.2 with
        | some t => [WEvent.text t]
        | none => []) ++
       ((partitionValue value).2.1.attach.map (fun p =>
          match hv : p.1.2 with
          | Value.arr a =>
              (a.attach.map (fun q => value_to_xml q.1 p.1.1)).flatten
          | _ => value_to_xml p.1.2 p.1.1)).flatten)) ++
    [WEvent.endTag parent_name]
termination_by sizeOf value
decreasing_by
  · have h1 : sizeOf p.1.2 < sizeOf value := sizeOf_lt_of_mem_children p.2
    rw [hv] at h1
    have h2 : sizeOf q.1 < sizeOf a := List.sizeOf_lt_of_mem q.2
    simp only [Value.arr.sizeOf_spec] at h1
    omega
  · exact sizeOf_lt_of_mem_children p.2

/-- The child-emission loop of `value_to_xml` (lib.rs lines 152-161), with the
termination bookkeeping of the main definition removed: one recursive emission
per child entry, and one sibling emission per array item for `Array`-valued
children. -/
def childEvents (children : List (String × Value)) : List WEvent :=
  (children.map (fun p =>
     match p.2 with
     | Value.arr a => (a.map (fun item => value_to_xml item p.1)).flatten
     | _ => value_to_xml p.2 p.1)).flatten

theorem attach_childEvents (l : List (String × Value)) :
    ((l.attach.map (fun p =>
        match hv : p.1.2 with
        | Value.arr a =>
            (a.attach.map (fun q => value_to_xml q.1 p.1.1)).flatten
        | _ => value_to_xml p.1.2 p.1.1)).flatten) = childEvents l := by
  induction l with
  | nil => simp [childEvents]
  | cons kv rest ih =>
      simp only [List.attach_cons, List.map_cons, List.map_map,
        List.flatten_cons, childEvents]
      congr 1
      · rcases kv with ⟨k, v⟩
        cases v <;> simp

/-- Unfolding equation for `value_to_xml`, with the termination bookkeeping
replaced by the plain child-emission loop `childEvents`. -/
theorem value_to_xml_eq (value : Value) (parent_name : String) :
    value_to_xml value parent_name =
      if (partitionValue value).2.1.isEmpty && (partitionValue value).2.2.isNone then
        [WEvent.empty parent_name (partitionValue value).1]
      else
        (WEvent.start parent_name (partitionValue value).1 ::
          ((match (partitionValue value).2.2 with
            | some t => [WEvent.text t]
            | none => []) ++ childEvents (partitionValue value).2.1)) ++
        [WEvent.endTag parent_name] := by
  rw [value_to_xml]
  rw [attach_childEvents]

/-- Concatenation of a list of strings (what the in-memory `Vec<u8>` writer
accumulates). -/
def strConcat : List String → String
  | [] => ""
  | s :: rest => s ++ strConcat rest

/-- Escape of one character per XML entity rules, as quick-xml applies to text
(`BytesText::new`) and attribute values (`push_attribute` on `&str` pairs). -/
def escapeChar (c : Char) : String :=
  if c == '<' then "&lt;"
  else if c == '>' then "&gt;"
  else if c == '&' then "&amp;"
  else if c == '\'' then "&apos;"
  else if c == '"' then "&quot;"
  else String.mk [c]

/-- Escape a whole string. -/
def escapeStr (s : String) : String := strConcat (s.data.map escapeChar)

/-- Serialisation of an attribute list on a tag, per quick-xml's writer. -/
def renderAttrs (attrs : List (String × String)) : String :=
  strConcat (attrs.map (fun kv => " " ++ kv.1 ++ "=\"" ++ escapeStr kv.2 ++ "\""))

/-- Serialisation of one write event, modelling the external quick-xml
`Writer` (with the event-construction-time escaping folded in, which is
observationally the same). -/
def render (ev : WEvent) : String :=
  match ev with
  | WEvent.decl version encoding =>
      "<?xml version=\"" ++ version ++ "\" encoding=\"" ++ encoding ++ "\"?>"
  | WEvent.empty name attrs => "<" ++ name ++ renderAttrs attrs ++ "/>"
  | WEvent.start name attrs => "<" ++ name ++ renderAttrs attrs ++ ">"
  | WEvent.text s => escapeStr s
  | WEvent.endTag name => "</" ++ name ++ ">"

/-- Serialisation of an event sequence in order. -/
def renderAll (evs : List WEvent) : String := strConcat (evs.map render)

/-- The XML declaration `dict_to_xml_str` writes first (lib.rs lines 184-190):
`BytesDecl::new("1.0", Some("utf-8"), None)`. -/
def declStr : String := "<?xml version=\"1.0\" encoding=\"utf-8\"?>"

/-- `dict_to_xml_str` (lib.rs lines 181-201), taking the root object's entries
(the pyo3 boundary adapter always supplies an `Object` for a `PyDict`): write
the XML declaration, then the events of one element per top-level entry, in
the map's iteration order.  The in-memory `Vec<u8>` writer cannot fail and
only UTF-8 strings are assembled, so the function is total. -/
def dict_to_xml_str (root : List (String × Value)) : String :=
  renderAll (WEvent.decl "1.0" "utf-8" ::
    (root.map (fun kv => value_to_xml kv.2 kv.1)).flatten)

/-- A write-event sequence forming exactly one top-level element with the
given name: either a single self-closing tag, or an open tag whose sequence
finishes with the matching close tag. -/
def isTopElement (evs : List WEvent) (name : String) : Bool :=
  match evs with
  | [WEvent.empty n _] => n == name
  | WEvent.start n _ :: rest =>
      n == name && rest.getLast? == some (WEvent.endTag name)
  | _ => false

theorem strConcat_append (a b : List String) :
    strConcat (a ++ b) = strConcat a ++ strConcat b := by
  induction a with
  | nil => simp [strConcat]
  | cons s rest ih => simp [strConcat, ih, String.append_assoc]

theorem renderAll_cons (ev : WEvent) (evs : List WEvent) :
    renderAll (ev :: evs) = render ev ++ renderAll evs := rfl

theorem renderAll_append (a b : List WEvent) :
    renderAll (a ++ b) = renderAll a ++ renderAll b := by
  simp [renderAll, strConcat_append]

theorem renderAll_flatten (l : List (List WEvent)) :
    renderAll l.flatten = strConcat (l.map renderAll) := by
  induction l with
  | nil => rfl
  | cons evs rest ih => simp [strConcat, renderAll_append, ih]

theorem parseLoop_append (st : PState) (a b : List XEvent) :
    parseLoop st (a ++ b) =
      match parseLoop st a with
      | Except.ok st2 => parseLoop st2 b
      | Except.error e => Except.error e := by
  induction a generalizing st with
  | nil => simp [parseLoop]
  | cons ev rest ih =>
      simp only [List.cons_append, parseLoop]
      cases h : step st ev with
      | ok st2 => simp [ih]
      | error e => rfl

theorem Map.get_insert (m : List (String × Value)) (k : String) (v : Value) :
    Map.get (Map.insert m k v) k = some v := by
  induction m with
  | nil => simp [Map.insert, Map.get]
  | cons q rest ih =>
      rcases q with ⟨k', v'⟩
      by_cases h : k' == k
      · simp [Map.insert, Map.get, h]
      · simp [Map.insert, Map.get, h, ih]

theorem isTopElement_value_to_xml (v : Value) (n : String) :
    isTopElement (value_to_xml v n) n = true := by
  rw [value_to_xml_eq]
  by_cases h : (partitionValue v).2.1.isEmpty && (partitionValue v).2.2.isNone
  · simp [h, isTopElement]
  · simp only [h, if_false, Bool.false_eq_true, List.cons_append]
    simp [isTopElement, List.getLast?_concat]

/-- C1, counterexample: decoding `<a></a>` (quick-xml events
`[Start("a"), End]`) yields the empty map, not the one-entry map
`{"a": {}}` keyed by the root tag name that the claim requires. -/
theorem decode_root_name_dropped_cex :
    parse_xml [XEvent.start "a" [], XEvent.endTag] = Except.ok (Value.obj [])
    ∧ Value.obj [] ≠ Value.obj [("a", Value.obj [])] :=
  ⟨rfl, by simp⟩

/-- C1, amended: decode returns the root element's converted value itself;
the root tag name is discarded (the result is the same for every root name)
and no one-entry wrapper map is created.  Shown for an empty root and for a
root with one child element. -/
theorem decode_returns_root_value_unwrapped :
    (∀ n : String, parse_xml [XEvent.start n [], XEvent.endTag]
        = Except.ok (Value.obj []))
    ∧ (∀ n : String,
        parse_xml [XEvent.start n [], XEvent.start "c" [], XEvent.endTag,
            XEvent.endTag]
          = Except.ok (Value.obj [("c", Value.obj [])])) :=
  ⟨fun _ => rfl, fun _ => rfl⟩

/-- C2, counterexample: `encode({"a": {"#text": "hi"}})` produces
`<?xml version="1.0" encoding="utf-8"?><a>hi</a>`; decoding that document
(quick-xml events `[Decl, Start("a"), Text("hi"), End]`) yields
`{"#text": "hi"}` — not the `{"a": "hi"}` the claim requires, and not a bare
string value for the element. -/
theorem decode_text_leaf_not_bare_cex :
    dict_to_xml_str [("a", Value.obj [("#text", Value.str "hi")])]
      = "<?xml version=\"1.0\" encoding=\"utf-8\"?><a>hi</a>"
    ∧ parse_xml [XEvent.other, XEvent.start "a" [],
        XEvent.text (Except.ok "hi"), XEvent.endTag]
      = Except.ok (Value.obj [("#text", Value.str "hi")])
    ∧ Value.obj [("#text", Value.str "hi")] ≠ Value.obj [("a", Value.str "hi")] := by
  refine ⟨?_, rfl, by simp⟩
  have h : partitionValue (Value.obj [("#text", Value.str "hi")])
      = ([], [], some "hi") := rfl
  have hv : value_to_xml (Value.obj [("#text", Value.str "hi")]) "a"
      = [WEvent.start "a" [], WEvent.text "hi", WEvent.endTag "a"] := by
    simp only [value_to_xml_eq, h]; rfl
  simp only [dict_to_xml_str, List.map_cons, List.map_nil, hv]
  rfl

/-- C2, amended: an element containing only non-whitespace text decodes to the
one-entry map `{"#text": text}` — never to a bare string — whether or not it
has attributes, and the round trip `decode(encode({"a": {"#text": "hi"}}))`
returns `{"#text": "hi"}` (the root name is dropped, see C1). -/
theorem decode_text_leaf_wraps_hash_text :
    (∀ (n s : String), (trimData s).isEmpty = false →
        parse_xml [XEvent.start n [], XEvent.text (Except.ok s), XEvent.endTag]
          = Except.ok (Value.obj [("#text", Value.str s)]))
    ∧ (∀ (n s : String), (trimData s).isEmpty = false →
        parse_xml [XEvent.start n [Except.ok ("id", Except.ok "5")],
            XEvent.text (Except.ok s), XEvent.endTag]
          = Except.ok (Value.obj [("#text", Value.str s), ("@id", Value.str "5")]))
    ∧ parse_xml [XEvent.other, XEvent.start "a" [],
        XEvent.text (Except.ok "hi"), XEvent.endTag]
      = Except.ok (Value.obj [("#text", Value.str "hi")]) := by
  refine ⟨?_, ?_, rfl⟩
  · intro n s h
    simp [parse_xml, parseLoop, step, unescOr, mkAttrs, closeObj, h, initState]
  · intro n s h
    simp [parse_xml, parseLoop, step, unescOr, mkAttrs, closeObj, h, initState]
    rfl

/-- C2, witness for the amended theorem at `n = "a"`, `s = "hi"`. -/
theorem decode_text_leaf_wraps_hash_text_witness :
    parse_xml [XEvent.start "a" [], XEvent.text (Except.ok "hi"), XEvent.endTag]
      = Except.ok (Value.obj [("#text", Value.str "hi")]) :=
  decode_text_leaf_wraps_hash_text.1 "a" "hi" rfl

/-- C3 (code bug): encoding `{"e": {}}` emits the self-closing document
`<?xml version="1.0" encoding="utf-8"?><e/>` as the claim states, but decoding
`<e/>` fails with `"Empty XML document"` instead of yielding `{"e": {}}`:
quick-xml delivers a self-closing tag as `Event::Empty` (the code leaves
`expand_empty_elements` at its default `false`), and the event loop's
`_ => ()` arm silently drops that event, so no root is ever captured. -/
theorem empty_element_decode_encode_asymmetry :
    parse_xml [XEvent.empty "e" []] = Except.error "Empty XML document"
    ∧ dict_to_xml_str [("e", Value.obj [])]
      = "<?xml version=\"1.0\" encoding=\"utf-8\"?><e/>" := by
  refine ⟨rfl, ?_⟩
  have hv : value_to_xml (Value.obj []) "e" = [WEvent.empty "e" []] := by
    have h : partitionValue (Value.obj []) = ([], [], none) := rfl
    simp only [value_to_xml_eq, h]; rfl
  simp only [dict_to_xml_str, List.map_cons, List.map_nil, hv]
  rfl

/-- C5, counterexample: decoding `<r><c></c>txt</r>` (events
`[Start("r"), Start("c"), End, Text("txt"), End]`) yields
`{"#text": "txt"}`: the text event overwrites the accumulated child map, so
the text is kept and the children are lost — the opposite of the claim. -/
theorem mixed_text_children_cex :
    parse_xml [XEvent.start "r" [], XEvent.start "c" [], XEvent.endTag,
        XEvent.text (Except.ok "txt"), XEvent.endTag]
      = Except.ok (Value.obj [("#text", Value.str "txt")])
    ∧ Value.obj [("#text", Value.str "txt")] ≠ Value.obj [("c", Value.obj [])] :=
  ⟨rfl, by simp⟩

/-- C5, amended: an element containing both non-whitespace text and child
elements keeps the text and loses the children, whether the text event occurs
after the children (it overwrites the accumulated child map) or before them
(each child closes into a non-map parent slot and is dropped).  A
non-whitespace text event always overwrites the current value slot. -/
theorem text_overwrites_children :
    parse_xml [XEvent.start "r" [], XEvent.start "c" [], XEvent.endTag,
        XEvent.text (Except.ok "txt"), XEvent.endTag]
      = Except.ok (Value.obj [("#text", Value.str "txt")])
    ∧ parse_xml [XEvent.start "r" [], XEvent.text (Except.ok "txt"),
        XEvent.start "c" [], XEvent.endTag, XEvent.endTag]
      = Except.ok (Value.obj [("#text", Value.str "txt")])
    ∧ (∀ (st : PState) (s : String), (trimData s).isEmpty = false →
        step st (XEvent.text (Except.ok s))
          = Except.ok { st with current_value := some (Value.str s) }) := by
  refine ⟨rfl, rfl, ?_⟩
  intro st s h
  simp [step, unescOr, h]

/-- C5, witness for the amended theorem's universal part at a state whose
current value is a child map. -/
theorem text_overwrites_children_witness :
    step { stack := [("r", none, [])], root := none,
           current_value := some (Value.obj [("c", Value.obj [])]),
           current_attrs := [] } (XEvent.text (Except.ok "txt"))
      = Except.ok { stack := [("r", none, [])], root := none,
                    current_value := some (Value.str "txt"),
                    current_attrs := [] } :=
  text_overwrites_children.2.2 _ "txt" rfl

/-- C6: whenever the tokenizer reports a syntax error (an `Err` outcome of
`read_event`, as for the mismatched `<a><b></a>`), `parse_xml` aborts with the
error string carrying the byte position and the tokenizer's message, and never
returns a value. -/
theorem tokenizer_error_aborts :
    ∀ (pre rest : List XEvent) (pos : Nat) (msg : String) (st : PState),
      parseLoop initState pre = Except.ok st →
      parse_xml (pre ++ XEvent.err pos msg :: rest)
        = Except.error ("Error at position " ++ toString pos ++ ": " ++ msg) := by
  intro pre rest pos msg st h
  simp only [parse_xml, parseLoop_append, h]
  simp [parseLoop, step]

/-- C6, witness on the events of `<a><b></a>`: two clean start tags, then the
tokenizer error at the mismatched end tag. -/
theorem tokenizer_error_aborts_witness :
    parse_xml ([XEvent.start "a" [], XEvent.start "b" []] ++
        XEvent.err 10 "IllFormed(MismatchedEndTag)" :: [])
      = Except.error ("Error at position " ++ toString 10 ++ ": "
          ++ "IllFormed(MismatchedEndTag)") :=
  tokenizer_error_aborts [XEvent.start "a" [], XEvent.start "b" []] [] 10
    "IllFormed(MismatchedEndTag)"
    { stack := [("b", some (Value.obj []), []), ("a", none, [])],
      root := none, current_value := some (Value.obj []), current_attrs := [] }
    rfl

/-- C7: if the event stream reaches end-of-input without any root having been
captured, `parse_xml` fails with `"Empty XML document"`; in particular the
empty input (whose only event is `Eof`) fails that way. -/
theorem empty_document_error :
    parse_xml [] = Except.error "Empty XML document"
    ∧ (∀ (evs : List XEvent) (st : PState),
        parseLoop initState evs = Except.ok st → st.root = none →
        parse_xml evs = Except.error "Empty XML document") := by
  refine ⟨rfl, ?_⟩
  intro evs st h hroot
  simp [parse_xml, h, hroot]

/-- C7, witness at an event stream holding one ignored event (for instance a
lone comment), which completes without capturing a root. -/
theorem empty_document_error_witness :
    parse_xml [XEvent.other] = Except.error "Empty XML document" :=
  empty_document_error.2 [XEvent.other] initState rfl rfl

/-- C4: the duplicate-key merge rule on closing an element — append when the
parent already maps the name to a `List`, replace any other existing value by
the two-element list `[old, new]` (document order), insert directly when the
name is absent; the end-tag step applies exactly this rule to the parent map;
and the encoder's child loop emits one sibling element per entry of a
`List`-valued child key. -/
theorem duplicate_key_merge_and_list_encoding :
    (∀ (parent : List (String × Value)) (name : String) (v : Value)
        (a : List Value),
        Map.get parent name = some (Value.arr a) →
        insertMerged parent name v = Map.insert parent name (Value.arr (a ++ [v]))
          ∧ Map.get (insertMerged parent name v) name
              = some (Value.arr (a ++ [v])))
    ∧ (∀ (parent : List (String × Value)) (name : String) (v old : Value),
        Map.get parent name = some old → (∀ a, old ≠ Value.arr a) →
        insertMerged parent name v = Map.insert parent name (Value.arr [old, v])
          ∧ Map.get (insertMerged parent name v) name
              = some (Value.arr [old, v]))
    ∧ (∀ (parent : List (String × Value)) (name : String) (v : Value),
        Map.get parent name = none →
        insertMerged parent name v = Map.insert parent name v
          ∧ Map.get (insertMerged parent name v) name = some v)
    ∧ (∀ (stRest : List (String × Option Value × List (String × Value)))
        (root cv : Option Value) (name : String)
        (parent pattrs cattrs : List (String × Value)),
        step { stack := (name, some (Value.obj parent), pattrs) :: stRest,
               root := root, current_value := cv, current_attrs := cattrs }
            XEvent.endTag
          = Except.ok
              { stack := stRest, root := root,
                current_value := some (Value.obj
                  (insertMerged parent name (Value.obj (closeObj cv cattrs)))),
                current_attrs := pattrs })
    ∧ (∀ (name : String) (items : List Value) (tail : List (String × Value)),
        childEvents ((name, Value.arr items) :: tail)
          = (items.map (fun item => value_to_xml item name)).flatten
              ++ childEvents tail) := by
  refine ⟨?_, ?_, ?_, ?_, ?_⟩
  · intro parent name v a h
    exact ⟨by simp [insertMerged, h], by simp [insertMerged, h, Map.get_insert]⟩
  · intro parent name v old h hne
    cases old with
    | arr a => exact absurd rfl (hne a)
    | null => exact ⟨by simp [insertMerged, h], by simp [insertMerged, h, Map.get_insert]⟩
    | bool b => exact ⟨by simp [insertMerged, h], by simp [insertMerged, h, Map.get_insert]⟩
    | num n => exact ⟨by simp [insertMerged, h], by simp [insertMerged, h, Map.get_insert]⟩
    | str s => exact ⟨by simp [insertMerged, h], by simp [insertMerged, h, Map.get_insert]⟩
    | obj o => exact ⟨by simp [insertMerged, h], by simp [insertMerged, h, Map.get_insert]⟩
  · intro parent name v h
    exact ⟨by simp [insertMerged, h], by simp [insertMerged, h, Map.get_insert]⟩
  · intro stRest root cv name parent pattrs cattrs
    rfl
  · intro name items tail
    simp [childEvents]

/-- C4, witness instantiating the three merge cases on concrete parent maps:
append to an existing list, collapse an existing scalar with the new value
into a two-element list, and plain insertion. -/
theorem duplicate_key_merge_and_list_encoding_witness :
    (insertMerged [("t", Value.arr [Value.str "1"])] "t" (Value.str "2")
        = Map.insert [("t", Value.arr [Value.str "1"])] "t"
            (Value.arr [Value.str "1", Value.str "2"])
      ∧ Map.get (insertMerged [("t", Value.arr [Value.str "1"])] "t"
            (Value.str "2")) "t"
          = some (Value.arr [Value.str "1", Value.str "2"]))
    ∧ (insertMerged [("t", Value.str "1")] "t" (Value.str "2")
        = Map.insert [("t", Value.str "1")] "t"
            (Value.arr [Value.str "1", Value.str "2"])
      ∧ Map.get (insertMerged [("t", Value.str "1")] "t" (Value.str "2")) "t"
          = some (Value.arr [Value.str "1", Value.str "2"]))
    ∧ (insertMerged [] "t" (Value.str "1") = Map.insert [] "t" (Value.str "1")
      ∧ Map.get (insertMerged [] "t" (Value.str "1")) "t"
          = some (Value.str "1")) :=
  ⟨duplicate_key_merge_and_list_encoding.1 _ "t" _ [Value.str "1"] rfl,
   duplicate_key_merge_and_list_encoding.2.1 _ "t" (Value.str "2")
     (Value.str "1") rfl (fun a h => Value.noConfusion h),
   duplicate_key_merge_and_list_encoding.2.2.1 [] "t" (Value.str "1") rfl⟩

/-- C8: for every input mapping, the encoder's output is the XML declaration
`<?xml version="1.0" encoding="utf-8"?>` followed by the rendering of one
element per top-level entry, in the mapping's iteration order; every per-entry
event sequence forms exactly one top-level element named by its key; and no
error can be raised (the function is total), in particular for mappings with
more than one top-level key. -/
theorem encode_decl_then_one_element_per_key :
    (∀ root : List (String × Value),
        dict_to_xml_str root
          = declStr ++ strConcat (root.map
              (fun kv => renderAll (value_to_xml kv.2 kv.1))))
    ∧ (∀ (v : Value) (n : String), isTopElement (value_to_xml v n) n = true) := by
  constructor
  · intro root
    simp only [dict_to_xml_str, renderAll_cons, renderAll_flatten, List.map_map]
    rfl
  · exact isTopElement_value_to_xml

/-- C9: an attribute whose value fails to unescape is kept with the empty
string as its value (`unwrap_or_default`), the start-tag step continues the
loop normally with those attributes pending, and a whole decode containing
such an attribute succeeds with `""` for it. -/
theorem attr_unescape_failure_defaults_empty :
    (∀ (raw : List RawAttr) (k e : String),
        Except.ok (k, Except.error e) ∈ raw →
        ("@" ++ k, Value.str "") ∈ mkAttrs raw)
    ∧ (∀ (st : PState) (name : String) (raw : List RawAttr)
        (rest : List XEvent),
        parseLoop st (XEvent.start name raw :: rest)
          = parseLoop
              { stack := (name, st.current_value, st.current_attrs) :: st.stack,
                root := st.root, current_value := some (Value.obj []),
                current_attrs := mkAttrs raw } rest)
    ∧ parse_xml [XEvent.start "a" [Except.ok ("k", Except.error "bad entity")],
        XEvent.endTag]
      = Except.ok (Value.obj [("@k", Value.str "")]) := by
  refine ⟨?_, ?_, rfl⟩
  · intro raw k e h
    exact List.mem_map.mpr ⟨(k, Except.error e),
      List.mem_filterMap.mpr ⟨Except.ok (k, Except.error e), h, rfl⟩, rfl⟩
  · intro st name raw rest
    rfl

/-- C9, witness at a single-attribute list whose unescape failed. -/
theorem attr_unescape_failure_defaults_empty_witness :
    ("@" ++ "k", Value.str "")
      ∈ mkAttrs [Except.ok ("k", Except.error "bad entity")] :=
  attr_unescape_failure_defaults_empty.1 _ "k" "bad entity" (by simp)

/-- C10: an `@`-key or `#text` key holding a non-string value is encoded
without error as an empty attribute value resp. empty text (`as_str`
defaulting), and every leading `@` of an attribute key is stripped, not just
the first one; the rendered forms show the emitted XML. -/
theorem non_string_attr_text_lenient :
    (∀ v : Value, asStr v = none →
        value_to_xml (Value.obj [("@a", v)]) "e"
          = [WEvent.empty "e" [("a", "")]])
    ∧ (∀ v : Value, asStr v = none →
        value_to_xml (Value.obj [("#text", v)]) "e"
          = [WEvent.start "e" [], WEvent.text "", WEvent.endTag "e"])
    ∧ value_to_xml (Value.obj [("@@@id", Value.str "5")]) "e"
        = [WEvent.empty "e" [("id", "5")]]
    ∧ renderAll [WEvent.empty "e" [("a", "")]] = "<e a=\"\"/>"
    ∧ renderAll [WEvent.start "e" [], WEvent.text "", WEvent.endTag "e"]
        = "<e></e>" := by
  refine ⟨?_, ?_, ?_, rfl, rfl⟩
  · intro v h
    have hp : partitionValue (Value.obj [("@a", v)]) = ([("a", "")], [], none) := by
      simp [partitionValue, partAux, h, startsWithAt, stripLeadingAt]
    simp only [value_to_xml_eq, hp]
    rfl
  · intro v h
    have hp : partitionValue (Value.obj [("#text", v)]) = ([], [], some "") := by
      simp [partitionValue, partAux, h, startsWithAt]
    simp only [value_to_xml_eq, hp]
    rfl
  · have hp : partitionValue (Value.obj [("@@@id", Value.str "5")])
        = ([("id", "5")], [], none) := rfl
    simp only [value_to_xml_eq, hp]
    rfl

/-- C10, witness at a number-valued attribute and a list-valued text entry. -/
theorem non_string_attr_text_lenient_witness :
    value_to_xml (Value.obj [("@a", Value.num 7)]) "e"
        = [WEvent.empty "e" [("a", "")]]
    ∧ value_to_xml (Value.obj [("#text", Value.arr [])]) "e"
        = [WEvent.start "e" [], WEvent.text "", WEvent.endTag "e"] :=
  ⟨non_string_attr_text_lenient.1 (Value.num 7) rfl,
   non_string_attr_text_lenient.2.1 (Value.arr []) rfl⟩

end XmlDict
